import Mathlib

/-!
Verification development for the SPHinXsys multi-rate time-integration
scheduler and neighbor-configuration discipline, shallowly embedded from

- tests/2d_examples/test_2d_free_stream_around_cylinder/2d_free_stream_around_cylinder.cpp
- tests/2d_examples/test_2d_poiseuille_flow/src/poiseuille_flow.cpp
- src/shared/particle_dynamics/fluid_dynamics/viscous_dynamics/viscous_dynamics.hpp

C++ `Real` arithmetic is modelled by exact rationals.
-/

namespace SPHinXsys

/-
Numeric model of the acoustic sub-loop.

Both main loops run a sub-loop of the shape

    Real relaxation_time = 0.0;
    while (relaxation_time < Dt) {
        Real dt = SMIN(get_fluid_time_step_size.exec(), CLIP);
        ...physics with step size dt...
        relaxation_time += dt;
    }

where the free-stream variant clips with CLIP = Dt - relaxation_time
and the poiseuille variant clips with CLIP = Dt.  The sequence of values
returned by the acoustic Reduction is abstracted as a function bounds.
-/

/-- Accumulated relaxation time after n iterations of the guarded sub-loop
where iteration n at accumulated time t advances by step n t while the
guard t < Dt holds, and freezes once the guard fails (the loop has exited). -/
def loopAccum (step : ℕ → ℚ → ℚ) (Dt : ℚ) : ℕ → ℚ
  | 0 => 0
  | n + 1 =>
    let t := loopAccum step Dt n
    if t < Dt then t + step n t else t

/-- Number of physics sub-steps (pressure/density relaxation executions)
performed during the first n guard checks of the sub-loop. -/
def loopSteps (step : ℕ → ℚ → ℚ) (Dt : ℚ) : ℕ → ℕ
  | 0 => 0
  | n + 1 => loopSteps step Dt n + if loopAccum step Dt n < Dt then 1 else 0

/-- Sub-step size chosen by the free-stream variant:
dt = SMIN(get_fluid_time_step_size.exec(), Dt - relaxation_time). -/
def fsClip (bounds : ℕ → ℚ) (Dt : ℚ) : ℕ → ℚ → ℚ :=
  fun n t => min (bounds n) (Dt - t)

/-- Sub-step size chosen by the poiseuille variant:
dt = SMIN(get_fluid_time_step_size.parallel_exec(), Dt). -/
def psClip (bounds : ℕ → ℚ) (Dt : ℚ) : ℕ → ℚ → ℚ :=
  fun n _ => min (bounds n) Dt

/-- Accumulated relaxation time in the free-stream acoustic sub-loop. -/
def fsAccum (bounds : ℕ → ℚ) (Dt : ℚ) : ℕ → ℚ :=
  loopAccum (fsClip bounds Dt) Dt

/-- Accumulated relaxation time in the poiseuille acoustic sub-loop. -/
def psAccum (bounds : ℕ → ℚ) (Dt : ℚ) : ℕ → ℚ :=
  loopAccum (psClip bounds Dt) Dt

/-- Physics sub-steps executed by the free-stream acoustic sub-loop. -/
def fsSteps (bounds : ℕ → ℚ) (Dt : ℚ) : ℕ → ℕ :=
  loopSteps (fsClip bounds Dt) Dt

lemma loopAccum_zero (step : ℕ → ℚ → ℚ) (Dt : ℚ) : loopAccum step Dt 0 = 0 := rfl

lemma loopAccum_succ (step : ℕ → ℚ → ℚ) (Dt : ℚ) (n : ℕ) :
    loopAccum step Dt (n + 1) =
      if loopAccum step Dt n < Dt then loopAccum step Dt n + step n (loopAccum step Dt n)
      else loopAccum step Dt n := rfl

lemma loopSteps_succ (step : ℕ → ℚ → ℚ) (Dt : ℚ) (n : ℕ) :
    loopSteps step Dt (n + 1) =
      loopSteps step Dt n + if loopAccum step Dt n < Dt then 1 else 0 := rfl

lemma fsAccum_le (bounds : ℕ → ℚ) (Dt : ℚ) (hDt : 0 ≤ Dt) :
    ∀ n, fsAccum bounds Dt n ≤ Dt := by
  intro n
  induction n with
  | zero => simpa [fsAccum, loopAccum_zero] using hDt
  | succ n ih =>
    rw [fsAccum, loopAccum_succ]
    by_cases h : loopAccum (fsClip bounds Dt) Dt n < Dt
    · rw [if_pos h]
      have hmin : fsClip bounds Dt n (loopAccum (fsClip bounds Dt) Dt n)
          ≤ Dt - loopAccum (fsClip bounds Dt) Dt n := min_le_right _ _
      linarith
    · rw [if_neg h]; exact ih

lemma psAccum_lt_two (bounds : ℕ → ℚ) (Dt : ℚ) (hDt : 0 < Dt) :
    ∀ n, psAccum bounds Dt n < 2 * Dt := by
  intro n
  induction n with
  | zero => rw [psAccum, loopAccum_zero]; linarith
  | succ n ih =>
    rw [psAccum, loopAccum_succ]
    rw [psAccum] at ih
    by_cases h : loopAccum (psClip bounds Dt) Dt n < Dt
    · rw [if_pos h]
      have hmin : psClip bounds Dt n (loopAccum (psClip bounds Dt) Dt n) ≤ Dt :=
        min_le_right _ _
      linarith
    · rw [if_neg h]; exact ih

lemma loopAccum_progress (step : ℕ → ℚ → ℚ) (Dt ε : ℚ) (hε : 0 < ε)
    (hstep : ∀ n t, 0 ≤ t → t < Dt → min ε (Dt - t) ≤ step n t) :
    ∀ n, 0 ≤ loopAccum step Dt n ∧ min ((n : ℚ) * ε) Dt ≤ loopAccum step Dt n := by
  intro n
  induction n with
  | zero =>
    rw [loopAccum_zero]
    exact ⟨le_refl 0, by simp⟩
  | succ n ih =>
    obtain ⟨h0, hm⟩ := ih
    rw [loopAccum_succ]
    by_cases h : loopAccum step Dt n < Dt
    · rw [if_pos h]
      have hs := hstep n (loopAccum step Dt n) h0 h
      have hlo : min ε (Dt - loopAccum step Dt n) > 0 :=
        lt_min hε (by linarith)
      constructor
      · linarith
      · rcases le_or_lt ε (Dt - loopAccum step Dt n) with hc | hc
        · have hεle : ε ≤ step n (loopAccum step Dt n) := by
            rw [min_eq_left hc] at hs; exact hs
          rcases min_cases ((n : ℚ) * ε) Dt with ⟨he, _⟩ | ⟨he, _⟩
          · rw [he] at hm
            have : min ((n : ℚ) * ε + ε) Dt ≤ (n : ℚ) * ε + ε := min_le_left _ _
            have hcast : ((n + 1 : ℕ) : ℚ) * ε = (n : ℚ) * ε + ε := by push_cast; ring
            rw [hcast]; linarith
          · have : min (((n + 1 : ℕ) : ℚ) * ε) Dt ≤ Dt := min_le_right _ _
            rw [he] at hm; linarith
        · have hDle : Dt - loopAccum step Dt n ≤ step n (loopAccum step Dt n) := by
            rw [min_eq_right (le_of_lt hc)] at hs; exact hs
          have : min (((n + 1 : ℕ) : ℚ) * ε) Dt ≤ Dt := min_le_right _ _
          linarith
    · rw [if_neg h]
      refine ⟨h0, ?_⟩
      have : min (((n + 1 : ℕ) : ℚ) * ε) Dt ≤ Dt := min_le_right _ _
      linarith [not_lt.mp h]

lemma loopAccum_reaches (step : ℕ → ℚ → ℚ) (Dt ε : ℚ) (hε : 0 < ε)
    (hstep : ∀ n t, 0 ≤ t → t < Dt → min ε (Dt - t) ≤ step n t) :
    ∃ n, Dt ≤ loopAccum step Dt n := by
  obtain ⟨n, hn⟩ := exists_nat_ge (Dt / ε)
  refine ⟨n, ?_⟩
  have hmle : Dt ≤ (n : ℚ) * ε := by
    rw [div_le_iff₀ hε] at hn; linarith
  have := (loopAccum_progress step Dt ε hε hstep n).2
  have hmin : min ((n : ℚ) * ε) Dt = Dt := min_eq_right hmle
  rw [hmin] at this; exact this

/-- C1 (amended): the free-stream sub-loop chooses dt = min(bound, Dt − accumulated),
so the accumulated sub-step time never exceeds Dt and equals Dt exactly whenever the
loop guard has failed (the loop has exited); the poiseuille sub-loop chooses
dt = min(bound, Dt), so its accumulated time is only bounded by 2·Dt. -/
theorem acoustic_subloop_clipping (bounds : ℕ → ℚ) (Dt : ℚ) (hDt : 0 < Dt) :
    (∀ n, fsAccum bounds Dt n ≤ Dt) ∧
    (∀ n, Dt ≤ fsAccum bounds Dt n → fsAccum bounds Dt n = Dt) ∧
    (∀ n, psAccum bounds Dt n < 2 * Dt) := by
  refine ⟨fsAccum_le bounds Dt (le_of_lt hDt), ?_, psAccum_lt_two bounds Dt hDt⟩
  intro n hn
  exact le_antisymm (fsAccum_le bounds Dt (le_of_lt hDt) n) hn

/-- C1 witness: concrete instantiation of the amended sub-loop clipping theorem. -/
theorem acoustic_subloop_clipping_witness :
    fsAccum (fun _ => 1) 3 2 ≤ 3 ∧ psAccum (fun _ => 1) 3 2 < 2 * 3 :=
  ⟨(acoustic_subloop_clipping (fun _ => 1) 3 (by norm_num)).1 2,
   (acoustic_subloop_clipping (fun _ => 1) 3 (by norm_num)).2.2 2⟩

/-- C1 counterexample: in the poiseuille sub-loop with Dt = 3 and the positive
acoustic bound sequence constantly 2, the chosen dt at the second iteration is
min(2, Dt) = 2 rather than the remaining time 1, the loop exits after two
iterations, and the accumulated sub-step time is 4 > Dt. -/
theorem acoustic_subloop_overshoot_cex :
    (0 : ℚ) < 2 ∧
    psClip (fun _ => 2) 3 1 (psAccum (fun _ => 2) 3 1) = 2 ∧
    psAccum (fun _ => 2) 3 2 = 4 ∧
    psAccum (fun _ => 2) 3 3 = 4 ∧
    ¬ psAccum (fun _ => 2) 3 2 ≤ 3 := by
  refine ⟨by norm_num, ?_, ?_, ?_, ?_⟩ <;>
    norm_num [psAccum, psClip, loopAccum, min_def]

/-- C2 (amended): the schedulers perform no validity check on Reduction results; if
every acoustic bound is non-positive, the free-stream sub-loop keeps the accumulated
time at or below zero forever and nevertheless executes one physics sub-step
(pressure and density relaxation) in every iteration: no abort occurs and physics
steps continue to execute after the non-positive bound is returned. -/
theorem nonpositive_bound_no_abort (bounds : ℕ → ℚ) (Dt : ℚ)
    (hDt : 0 < Dt) (hb : ∀ n, bounds n ≤ 0) :
    ∀ n, fsAccum bounds Dt n ≤ 0 ∧ fsSteps bounds Dt n = n := by
  intro n
  induction n with
  | zero => exact ⟨le_of_eq (loopAccum_zero _ _), rfl⟩
  | succ n ih =>
    obtain ⟨h0, hsn⟩ := ih
    have hlt : loopAccum (fsClip bounds Dt) Dt n < Dt := lt_of_le_of_lt h0 hDt
    constructor
    · rw [fsAccum, loopAccum_succ, if_pos hlt]
      have : fsClip bounds Dt n (loopAccum (fsClip bounds Dt) Dt n) ≤ bounds n :=
        min_le_left _ _
      have hbn := hb n
      rw [fsAccum] at h0
      linarith
    · rw [fsSteps, loopSteps_succ, if_pos hlt]
      rw [fsSteps] at hsn
      rw [hsn]

/-- C2 witness: concrete instantiation with the constantly-zero bound sequence. -/
theorem nonpositive_bound_no_abort_witness :
    fsAccum (fun _ => 0) 1 3 ≤ 0 ∧ fsSteps (fun _ => 0) 1 3 = 3 :=
  nonpositive_bound_no_abort (fun _ => 0) 1 (by norm_num) (fun _ => le_refl 0) 3

/-- C2 counterexample: with Dt = 1 and an acoustic Reduction that returns the
non-positive bound 0, three further physics sub-steps are executed after the first
such return and the accumulated time never advances, refuting the claim that no
further physics step is executed after a non-positive bound. -/
theorem nonpositive_bound_no_abort_cex :
    (fun _ => (0 : ℚ)) 0 ≤ 0 ∧
    fsSteps (fun _ => 0) 1 4 = 4 ∧
    fsAccum (fun _ => 0) 1 4 = 0 := by
  refine ⟨le_refl 0, ?_, ?_⟩ <;>
    norm_num [fsSteps, fsAccum, fsClip, loopAccum, loopSteps, min_def]

/-- Acoustic bound sequence that is strictly positive at every iteration yet
vanishes fast enough that the accumulated sub-loop time converges below Dt = 1. -/
def cexBounds : ℕ → ℚ := fun n => (1 / 2) ^ (n + 2)

lemma fsAccum_cexBounds (n : ℕ) :
    fsAccum cexBounds 1 n = 1 / 2 - (1 / 2) ^ (n + 1) := by
  induction n with
  | zero => rw [fsAccum, loopAccum_zero]; norm_num
  | succ n ih =>
    rw [fsAccum] at ih
    have hp : (0 : ℚ) < (1 / 2) ^ (n + 1) := pow_pos (by norm_num) _
    have hlt : loopAccum (fsClip cexBounds 1) 1 n < 1 := by rw [ih]; linarith
    rw [fsAccum, loopAccum_succ, if_pos hlt, ih]
    have hclip : fsClip cexBounds 1 n (1 / 2 - (1 / 2) ^ (n + 1)) = (1 / 2) ^ (n + 2) := by
      rw [fsClip]
      have hle : ((1 : ℚ) / 2) ^ (n + 2) ≤ 1 - (1 / 2 - (1 / 2) ^ (n + 1)) := by
        have h2 : ((1 : ℚ) / 2) ^ (n + 2) = (1 / 2) ^ (n + 1) * (1 / 2) := pow_succ _ _
        have h3 : ((1 : ℚ) / 2) ^ (n + 1) * (1 / 2) ≤ (1 / 2) ^ (n + 1) := by linarith
        linarith
      exact min_eq_left hle
    rw [hclip]
    have h2 : ((1 : ℚ) / 2) ^ (n + 2) = (1 / 2) ^ (n + 1) * (1 / 2) := pow_succ _ _
    rw [h2]; ring

/-- C4 counterexample: strict positivity of every acoustic bound does not by itself
guarantee that the accumulated sub-loop time ever reaches Dt; with Dt = 1 and the
positive bound sequence cexBounds the free-stream sub-loop never exits. -/
theorem acoustic_positivity_termination_cex :
    ¬ (∀ (bounds : ℕ → ℚ) (Dt : ℚ), (∀ n, 0 < bounds n) → 0 < Dt →
        ∃ n, Dt ≤ fsAccum bounds Dt n) := by
  intro h
  obtain ⟨n, hn⟩ := h cexBounds 1 (fun n => pow_pos (by norm_num) _) one_pos
  rw [fsAccum_cexBounds n] at hn
  have hp : (0 : ℚ) < (1 / 2) ^ (n + 1) := pow_pos (by norm_num) _
  linarith

/-- C4 (amended): if the acoustic bounds returned by the Reduction are bounded below
by a fixed ε > 0, each iteration of either sub-loop advances the accumulated time by
at least min(ε, remaining), so the accumulated time reaches Dt after finitely many
iterations and the sub-loop terminates. -/
theorem acoustic_subloop_termination (bounds : ℕ → ℚ) (Dt ε : ℚ)
    (hε : 0 < ε) (hb : ∀ n, ε ≤ bounds n) (hDt : 0 < Dt) :
    (∃ n, Dt ≤ fsAccum bounds Dt n) ∧ (∃ n, Dt ≤ psAccum bounds Dt n) := by
  constructor
  · exact loopAccum_reaches _ Dt ε hε
      (fun n t _ _ => min_le_min (hb n) (le_refl _))
  · refine loopAccum_reaches _ Dt ε hε (fun n t ht0 _ => ?_)
    refine le_min (le_trans (min_le_left _ _) (hb n)) ?_
    exact le_trans (min_le_right _ _) (by linarith)

/-- C4 witness: with the constant bound sequence 1 and Dt = 1 both sub-loops reach Dt. -/
theorem acoustic_subloop_termination_witness :
    (∃ n, (1 : ℚ) ≤ fsAccum (fun _ => 1) 1 n) ∧
    (∃ n, (1 : ℚ) ≤ psAccum (fun _ => 1) 1 n) :=
  acoustic_subloop_termination (fun _ => 1) 1 1 one_pos (fun _ => le_refl 1) one_pos

/-
Event-trace model of the two main loops.

Each statement of the C++ main loops that touches particle data, a
NeighborRelation or the spatial index is embedded as one event.  The
free-stream loop (2d_free_stream_around_cylinder.cpp) and the poiseuille
loop (poiseuille_flow.cpp) get separate event alphabets because their
dynamics objects are bound to different relations.
-/

/-- Bodies of the free-stream case: water block, cylinder, fluid observer. -/
inductive FBody
  | water
  | cylinder
  | observer
deriving DecidableEq

/-- NeighborRelations of the free-stream case: water_block_inner,
water_block_contact, cylinder_contact, fluid_observer_contact
(water_block_complex is the pair water_block_inner / water_block_contact). -/
inductive FRel
  | waterInner
  | waterContact
  | cylinderContact
  | observerContact
deriving DecidableEq

/-- Self and partner bodies of each free-stream relation. -/
def FRel.touches : FRel → List FBody
  | .waterInner => [.water]
  | .waterContact => [.water, .cylinder]
  | .cylinderContact => [.cylinder, .water]
  | .observerContact => [.observer, .water]

/-- All free-stream relations. -/
def allFRels : List FRel := [.waterInner, .waterContact, .cylinderContact, .observerContact]

/-- Events of the free-stream main loop, lines 178-228 of
2d_free_stream_around_cylinder.cpp, in source order of first occurrence. -/
inductive FStep
  | initFluid
  | advectRed
  | surfInd
  | updDensity
  | viscAcc
  | transportCorr
  | acousticRed
  | pressureRel
  | densityRel
  | inflowCond
  | emitterInjection
  | disposerDeletion
  | rebuildSort
  | refreshWaterComplex
  | refreshCylContact
  | vorticity
  | writeViscForce
  | writePressForce
  | refreshObsContact
  | writeFluidVel
deriving DecidableEq

/-- Relations whose stored neighbor lists are read by each event. -/
def FStep.consumes : FStep → List FRel
  | .surfInd => [.waterInner, .waterContact]
  | .updDensity => [.waterInner, .waterContact]
  | .viscAcc => [.waterInner, .waterContact]
  | .transportCorr => [.waterInner, .waterContact]
  | .pressureRel => [.waterInner, .waterContact]
  | .densityRel => [.waterInner, .waterContact]
  | .vorticity => [.waterInner]
  | .writeViscForce => [.cylinderContact]
  | .writePressForce => [.cylinderContact]
  | .writeFluidVel => [.observerContact]
  | _ => []

/-- Bodies whose particle positions, membership or index order are changed by each
event (transport correction and the relaxation phases move water particles; the
emitter injects, the disposer deletes, and the sorted rebuild permutes indices). -/
def FStep.mutates : FStep → List FBody
  | .transportCorr => [.water]
  | .pressureRel => [.water]
  | .densityRel => [.water]
  | .emitterInjection => [.water]
  | .disposerDeletion => [.water]
  | .rebuildSort => [.water]
  | _ => []

/-- Relations re-derived by each event via updateConfiguration(). -/
def FStep.refreshes : FStep → List FRel
  | .refreshWaterComplex => [.waterInner, .waterContact]
  | .refreshCylContact => [.cylinderContact]
  | .refreshObsContact => [.observerContact]
  | _ => []

/-- Pre-physics part of each free-stream macro step, lines 178-183. -/
def fsPrePhysics : List FStep :=
  [.initFluid, .advectRed, .surfInd, .updDensity, .viscAcc, .transportCorr]

/-- One iteration of the free-stream acoustic sub-loop, lines 189-199. -/
def fsSubIter : List FStep := [.acousticRed, .pressureRel, .densityRel, .inflowCond]

/-- Free-stream acoustic sub-loop with k iterations. -/
def fsSubLoop (k : ℕ) : List FStep := (List.replicate k fsSubIter).flatten

/-- Post-physics configuration refresh of each free-stream macro step, lines 211-218. -/
def fsRefreshBlock : List FStep :=
  [.emitterInjection, .disposerDeletion, .rebuildSort, .refreshWaterComplex, .refreshCylContact]

/-- One free-stream macro advection step with k acoustic sub-iterations. -/
def fsMacroStep (k : ℕ) : List FStep := fsPrePhysics ++ fsSubLoop k ++ fsRefreshBlock

/-- Output block executed when the inner integration loop exits, lines 223-228. -/
def fsOutputBlock : List FStep :=
  [.vorticity, .writeViscForce, .writePressForce, .refreshObsContact, .writeFluidVel]

/-- Dirty-relation set after one event: a relation is dirty when a body it touches
was mutated after the relation's last updateConfiguration(). -/
def stepDirty (D : List FRel) (s : FStep) : List FRel :=
  allFRels.filter fun r =>
    (r.touches.any fun b => (s.mutates).contains b) ||
    (D.contains r && !((s.refreshes).contains r))

/-- Dirty-relation set after a whole trace, starting from dirty set D. -/
def runDirty (D : List FRel) : List FStep → List FRel
  | [] => D
  | s :: t => runDirty (stepDirty D s) t

/-- Checks that the first consumption of every relation in the trace finds that
relation clean: walking the trace with dirty set D, an event may consume a dirty
relation only if the relation was already consumed earlier in the trace. -/
def firstFresh : List FRel → List FRel → List FStep → Bool
  | _, _, [] => true
  | D, seen, s :: t =>
    (s.consumes.all fun r => seen.contains r || !(D.contains r)) &&
    firstFresh (stepDirty D s) (seen ++ s.consumes) t

/-- C3: starting from the dirty state left by a full macro step (water particles
moved, injected, deleted and re-sorted; water and cylinder relations refreshed in
lines 211-218), the first consumption of every relation in the continuation of the
loop is clean, on both continuation paths (next macro step, or output block then
next macro step) and for 0-3 acoustic sub-iterations: every relation touching a
changed body is re-derived by updateConfiguration() before it is next consumed. -/
theorem refresh_before_next_consumption :
    ([0, 1, 2, 3].all fun k =>
      firstFresh (runDirty [] (fsMacroStep k)) [] (fsMacroStep k) &&
      firstFresh (runDirty [] (fsMacroStep k)) [] (fsOutputBlock ++ fsMacroStep k)) = true := by
  decide

/-- Events of the poiseuille main loop, lines 188-224 of poiseuille_flow.cpp.
The viscous-acceleration call of the pre-physics position (line 191) is commented
out in the source; viscAcc occurs only inside the acoustic sub-loop (line 201). -/
inductive PStep
  | initFluid
  | advectRed
  | updDensity
  | transportCorr
  | acousticRed
  | pressureRel
  | viscAcc
  | densityRel
  | periodicBounding
  | rebuildCellList
  | periodicUpdCellList
  | refreshComplex
deriving DecidableEq

/-- Pre-physics part of each poiseuille macro step, lines 188-192. -/
def psPrePhysics : List PStep := [.initFluid, .advectRed, .updDensity, .transportCorr]

/-- One iteration of the poiseuille acoustic sub-loop, lines 199-205. -/
def psSubIter : List PStep := [.acousticRed, .pressureRel, .viscAcc, .densityRel]

/-- Poiseuille acoustic sub-loop with k iterations. -/
def psSubLoop (k : ℕ) : List PStep := (List.replicate k psSubIter).flatten

/-- Configuration update block of each poiseuille macro step, lines 221-224. -/
def psRefreshBlock : List PStep :=
  [.periodicBounding, .rebuildCellList, .periodicUpdCellList, .refreshComplex]

/-- One poiseuille macro advection step with k acoustic sub-iterations. -/
def psMacroStep (k : ℕ) : List PStep := psPrePhysics ++ psSubLoop k ++ psRefreshBlock

/-- Poiseuille inner integration loop: m macro steps of k sub-iterations each. -/
def psInnerLoop (m k : ℕ) : List PStep := (List.replicate m (psMacroStep k)).flatten

lemma count_flatten_replicate {α : Type} [DecidableEq α] (a : α) (l : List α) :
    ∀ k, ((List.replicate k l).flatten).count a = k * l.count a := by
  intro k
  induction k with
  | zero => simp
  | succ n ih =>
    rw [List.replicate_succ, List.flatten_cons, List.count_append, ih]
    ring

/-- C6 counterexample: the claim puts the advection-bound Reduction first in the
macro step, before the PointwiseUpdate initialization; in the embedded free-stream
macro step the initialization is event 0 and the Reduction event 1, so the Reduction
does not precede the PointwiseUpdate. -/
theorem macro_stage_order_cex :
    (fsMacroStep 1).indexOf FStep.initFluid = 0 ∧
    (fsMacroStep 1).indexOf FStep.advectRed = 1 ∧
    ¬ (fsMacroStep 1).indexOf FStep.advectRed < (fsMacroStep 1).indexOf FStep.initFluid := by
  decide

/-- C6 (amended): in every macro advection step, of either variant, the stages run
in the fixed order PointwiseUpdate initialization, then the advection-bound
Reduction producing Dt, then the remaining pre-physics interactions (density
summation with surface indication and viscous/transport corrections in the
free-stream variant; density summation and transport correction in the poiseuille
variant), each exactly once per macro step and all before the acoustic sub-loop. -/
theorem macro_stage_order (k : ℕ) :
    fsMacroStep k = fsPrePhysics ++ (fsSubLoop k ++ fsRefreshBlock) ∧
    fsPrePhysics =
      [.initFluid, .advectRed, .surfInd, .updDensity, .viscAcc, .transportCorr] ∧
    (∀ s ∈ fsPrePhysics, (fsSubLoop k ++ fsRefreshBlock).count s = 0) ∧
    (∀ s ∈ fsPrePhysics, (fsMacroStep k).count s = 1) ∧
    psMacroStep k = psPrePhysics ++ (psSubLoop k ++ psRefreshBlock) ∧
    psPrePhysics = [.initFluid, .advectRed, .updDensity, .transportCorr] ∧
    (∀ s ∈ psPrePhysics, (psSubLoop k ++ psRefreshBlock).count s = 0) ∧
    (∀ s ∈ psPrePhysics, (psMacroStep k).count s = 1) := by
  have hfsub : ∀ s ∈ fsPrePhysics, (fsSubLoop k).count s = 0 := by
    intro s hs
    rw [fsSubLoop, count_flatten_replicate]
    fin_cases hs <;> simp [fsSubIter]
  have hpsub : ∀ s ∈ psPrePhysics, (psSubLoop k).count s = 0 := by
    intro s hs
    rw [psSubLoop, count_flatten_replicate]
    fin_cases hs <;> simp [psSubIter]
  refine ⟨by simp [fsMacroStep], rfl, ?_, ?_, by simp [psMacroStep], rfl, ?_, ?_⟩
  · intro s hs
    rw [List.count_append, hfsub s hs]
    fin_cases hs <;> simp [fsRefreshBlock]
  · intro s hs
    rw [fsMacroStep, List.count_append, List.count_append, hfsub s hs]
    fin_cases hs <;> simp [fsPrePhysics, fsRefreshBlock]
  · intro s hs
    rw [List.count_append, hpsub s hs]
    fin_cases hs <;> simp [psRefreshBlock]
  · intro s hs
    rw [psMacroStep, List.count_append, List.count_append, hpsub s hs]
    fin_cases hs <;> simp [psPrePhysics, psRefreshBlock]

/-- C6 witness: concrete instantiation of the amended macro stage-order theorem. -/
theorem macro_stage_order_witness :
    (fsMacroStep 2).count FStep.initFluid = 1 ∧ (psMacroStep 2).count PStep.advectRed = 1 :=
  ⟨(macro_stage_order 2).2.2.2.1 FStep.initFluid (by decide),
   (macro_stage_order 2).2.2.2.2.2.2.2 PStep.advectRed (by decide)⟩

/-- C7: the viscous-acceleration recomputation is placed at advection rate in the
free-stream variant (exactly once per macro step, in the pre-physics pass, never in
the acoustic sub-loop) and at acoustic rate in the poiseuille variant (absent from
the pre-physics pass, exactly once per sub-iteration, hence k times in a macro step
with k sub-iterations). -/
theorem viscous_placement (k : ℕ) :
    fsPrePhysics.count FStep.viscAcc = 1 ∧
    (fsSubLoop k).count FStep.viscAcc = 0 ∧
    (fsMacroStep k).count FStep.viscAcc = 1 ∧
    psPrePhysics.count PStep.viscAcc = 0 ∧
    (psSubLoop k).count PStep.viscAcc = k ∧
    (psMacroStep k).count PStep.viscAcc = k := by
  have hfs : (fsSubLoop k).count FStep.viscAcc = 0 := by
    rw [fsSubLoop, count_flatten_replicate]; simp [fsSubIter]
  have hps : (psSubLoop k).count PStep.viscAcc = k := by
    rw [psSubLoop, count_flatten_replicate]; simp [psSubIter]
  refine ⟨rfl, hfs, ?_, rfl, hps, ?_⟩
  · rw [fsMacroStep, List.count_append, List.count_append, hfs]
    rfl
  · rw [psMacroStep, List.count_append, List.count_append, hps]
    simp [psPrePhysics, psRefreshBlock]

/-- Checks that in a poiseuille trace every cell-linked-list rebuild is immediately
preceded by the periodic bounding event and immediately followed by the periodic
cell-linked-list update and then updateConfiguration(), in that fixed order. -/
def rebuildDiscipline : List PStep → Bool
  | [] => true
  | .periodicBounding :: .rebuildCellList :: .periodicUpdCellList :: .refreshComplex :: t =>
    rebuildDiscipline t
  | .rebuildCellList :: _ => false
  | _ :: t => rebuildDiscipline t

lemma rebuildDiscipline_skip (s : PStep) (t : List PStep)
    (h1 : s ≠ .periodicBounding) (h2 : s ≠ .rebuildCellList) :
    rebuildDiscipline (s :: t) = rebuildDiscipline t := by
  cases s <;> first
    | rfl
    | exact absurd rfl h1
    | exact absurd rfl h2

lemma rebuildDiscipline_subLoop (k : ℕ) (t : List PStep) :
    rebuildDiscipline (psSubLoop k ++ t) = rebuildDiscipline t := by
  induction k with
  | zero => rw [psSubLoop]; simp
  | succ n ih =>
    rw [psSubLoop, List.replicate_succ, List.flatten_cons, List.append_assoc]
    show rebuildDiscipline (psSubIter ++ (psSubLoop n ++ t)) = _
    rw [psSubIter]
    simp only [List.cons_append, List.nil_append]
    rw [rebuildDiscipline_skip .acousticRed _ (by simp) (by simp),
      rebuildDiscipline_skip .pressureRel _ (by simp) (by simp),
      rebuildDiscipline_skip .viscAcc _ (by simp) (by simp),
      rebuildDiscipline_skip .densityRel _ (by simp) (by simp)]
    exact ih

lemma rebuildDiscipline_macroStep (k : ℕ) (t : List PStep) :
    rebuildDiscipline (psMacroStep k ++ t) = rebuildDiscipline t := by
  rw [psMacroStep, psPrePhysics, List.append_assoc, List.append_assoc]
  simp only [List.cons_append, List.nil_append]
  rw [rebuildDiscipline_skip .initFluid _ (by simp) (by simp),
    rebuildDiscipline_skip .advectRed _ (by simp) (by simp),
    rebuildDiscipline_skip .updDensity _ (by simp) (by simp),
    rebuildDiscipline_skip .transportCorr _ (by simp) (by simp),
    rebuildDiscipline_subLoop]
  rw [psRefreshBlock]
  simp only [List.cons_append, List.nil_append]
  rfl

/-- Modelled from the spec: the periodic bounding operation of
PeriodicConditionUsingCellLinkedList (its implementation is not among the provided
sources) maps a particle coordinate back into the periodic domain of length L
starting at lo, as the spec's "maps particle positions back into the periodic
domain" requires. -/
def periodicWrap (lo L x : ℚ) : ℚ := lo + L * Int.fract ((x - lo) / L)

/-- C10: in the poiseuille inner integration loop (any number m of macro steps with
any number k of acoustic sub-iterations each), every cell-linked-list rebuild is
immediately preceded by the periodic bounding event and immediately followed by the
periodic cell-linked-list update and updateConfiguration(), in that fixed order;
and the periodic bounding map sends every coordinate into the domain [lo, lo + L),
re-establishing the rebuild precondition that particles lie inside the bounds. -/
theorem periodic_rebuild_discipline :
    (∀ m k, rebuildDiscipline (psInnerLoop m k) = true) ∧
    (∀ lo L x : ℚ, 0 < L → lo ≤ periodicWrap lo L x ∧ periodicWrap lo L x < lo + L) := by
  constructor
  · intro m k
    induction m with
    | zero => rw [psInnerLoop]; rfl
    | succ n ih =>
      rw [psInnerLoop, List.replicate_succ, List.flatten_cons,
        rebuildDiscipline_macroStep]
      exact ih
  · intro lo L x hL
    constructor
    · have h0 : 0 ≤ L * Int.fract ((x - lo) / L) :=
        mul_nonneg (le_of_lt hL) (Int.fract_nonneg _)
      rw [periodicWrap]; linarith
    · have h1 : L * Int.fract ((x - lo) / L) < L * 1 :=
        (mul_lt_mul_left hL).mpr (Int.fract_lt_one _)
      rw [periodicWrap]; linarith

/-- C10 witness: concrete instantiation of the periodic rebuild discipline. -/
theorem periodic_rebuild_discipline_witness :
    rebuildDiscipline (psInnerLoop 2 3) = true ∧
    (0 ≤ periodicWrap 0 4 9 ∧ periodicWrap 0 4 9 < 0 + 4) :=
  ⟨periodic_rebuild_discipline.1 2 3,
   periodic_rebuild_discipline.2 0 4 9 (by norm_num)⟩

/-
Particle-granular model of one acoustic sub-step.

The sub-loop body of the free-stream main loop is

    pressure_relaxation.exec(dt);
    density_relaxation.exec(dt);

with velocity_boundary_condition_constraint registered in
pressure_relaxation.post_processes_ (line 119).
-/

/-- Per-particle execution events inside one acoustic sub-step: first-phase
(pressure relaxation) work on particle i with step size dt, a registered
post-process hook j, second-phase (density relaxation) work on particle i. -/
inductive PhaseEv
  | phase1 (i : ℕ) (dt : ℚ)
  | hook (j : ℕ)
  | phase2 (i : ℕ) (dt : ℚ)
deriving DecidableEq

/-- Execution order rank of a sub-step event: first phase, then hooks, then
second phase. -/
def PhaseEv.rank : PhaseEv → ℕ
  | .phase1 _ _ => 0
  | .hook _ => 1
  | .phase2 _ _ => 2

/-- Step size carried by a phase event (hooks run without a step size). -/
def PhaseEv.dtOf : PhaseEv → Option ℚ
  | .phase1 _ dt => some dt
  | .hook _ => none
  | .phase2 _ dt => some dt

/-- Modelled from the spec: the Dynamics1Level execution wrapper (its
implementation is not among the provided sources) runs the first physics phase
fully over all N particles and then the registered post-process hooks, so
pressure_relaxation.exec(dt) emits phase-1 work for every particle followed by the
Nh registered hooks. -/
def pressureRelaxExec (N Nh : ℕ) (dt : ℚ) : List PhaseEv :=
  ((List.range N).map fun i => PhaseEv.phase1 i dt) ++
    ((List.range Nh).map fun j => PhaseEv.hook j)

/-- Modelled from the spec: density_relaxation.exec(dt) runs the second physics
phase fully over all N particles. -/
def densityRelaxExec (N : ℕ) (dt : ℚ) : List PhaseEv :=
  (List.range N).map fun i => PhaseEv.phase2 i dt

/-- One acoustic sub-step as executed by the main loop: pressure relaxation with
step size dt, then density relaxation with the same dt (lines 191-193). -/
def acousticSubStep (N Nh : ℕ) (dt : ℚ) : List PhaseEv :=
  pressureRelaxExec N Nh dt ++ densityRelaxExec N dt

lemma pairwise_of_forall {α : Type} {R : α → α → Prop} (h : ∀ a b, R a b) :
    ∀ l : List α, l.Pairwise R
  | [] => List.Pairwise.nil
  | a :: t => List.Pairwise.cons (fun b _ => h a b) (pairwise_of_forall h t)

/-- C5: within one acoustic sub-step the event sequence is rank-sorted — every
phase-1 event precedes every hook, which precedes every phase-2 event, so the first
phase completes over all particles before the hooks run and the hooks run before
the second phase starts; both phases cover every particle i < N and every phase
event carries the same step size dt. -/
theorem two_phase_ordering (N Nh : ℕ) (dt : ℚ) :
    (acousticSubStep N Nh dt).Pairwise (fun a b => a.rank ≤ b.rank) ∧
    (∀ e ∈ acousticSubStep N Nh dt, e.dtOf = some dt ∨ e.rank = 1) ∧
    (∀ i, i < N →
      PhaseEv.phase1 i dt ∈ acousticSubStep N Nh dt ∧
      PhaseEv.phase2 i dt ∈ acousticSubStep N Nh dt) := by
  refine ⟨?_, ?_, ?_⟩
  · rw [acousticSubStep, List.pairwise_append]
    refine ⟨?_, ?_, ?_⟩
    · rw [pressureRelaxExec, List.pairwise_append]
      refine ⟨?_, ?_, ?_⟩
      · exact List.pairwise_map.mpr (pairwise_of_forall (fun a b => le_refl 0) _)
      · exact List.pairwise_map.mpr (pairwise_of_forall (fun a b => le_refl 1) _)
      · intro a ha b hb
        obtain ⟨i, _, rfl⟩ := List.mem_map.mp ha
        obtain ⟨j, _, rfl⟩ := List.mem_map.mp hb
        simp [PhaseEv.rank]
    · exact List.pairwise_map.mpr (pairwise_of_forall (fun a b => le_refl 2) _)
    · intro a ha b hb
      obtain ⟨i, _, rfl⟩ := List.mem_map.mp hb
      rw [pressureRelaxExec, List.mem_append] at ha
      rcases ha with ha | ha <;>
        obtain ⟨j, _, rfl⟩ := List.mem_map.mp ha <;>
        simp [PhaseEv.rank]
  · intro e he
    rw [acousticSubStep, List.mem_append, pressureRelaxExec, List.mem_append] at he
    rcases he with (he | he) | he <;> obtain ⟨i, _, rfl⟩ := List.mem_map.mp he
    · exact Or.inl rfl
    · exact Or.inr rfl
    · exact Or.inl rfl
  · intro i hi
    constructor
    · rw [acousticSubStep, List.mem_append, pressureRelaxExec, List.mem_append]
      exact Or.inl (Or.inl (List.mem_map.mpr ⟨i, List.mem_range.mpr hi, rfl⟩))
    · rw [acousticSubStep, List.mem_append]
      exact Or.inr (List.mem_map.mpr ⟨i, List.mem_range.mpr hi, rfl⟩)

/-- C5 witness: concrete instantiation with two particles, one hook, dt = 1/4. -/
theorem two_phase_ordering_witness :
    PhaseEv.phase1 0 (1 / 4) ∈ acousticSubStep 2 1 (1 / 4) ∧
    PhaseEv.phase2 0 (1 / 4) ∈ acousticSubStep 2 1 (1 / 4) :=
  (two_phase_ordering 2 1 (1 / 4)).2.2 0 (by norm_num)

/-
Model of the BaseViscousAcceleration constructor
(viscous_dynamics.hpp, lines 12-17).
-/

/-- Fluid material interface read by the constructor. -/
structure Fluid where
  ReferenceViscosity : ℚ

/-- Spatial adaptation interface read by the constructor. -/
structure SPHAdaptation where
  ReferenceSmoothingLength : ℚ

/-- Particle data of the body the dynamics object is bound to. -/
structure BaseParticlesState where
  rho_ : List ℚ
  vel_ : List (ℚ × ℚ)
  acc_prior_ : List (ℚ × ℚ)
  baseMaterial : Fluid

/-- Body state visible to the constructor through the relation's SPHBody. -/
structure SPHBodyState where
  particles_ : BaseParticlesState
  sph_adaptation_ : SPHAdaptation

/-- Member state of a BaseViscousAcceleration object after construction. -/
structure BaseViscousAcceleration where
  rho_ : List ℚ
  vel_ : List (ℚ × ℚ)
  acc_prior_ : List (ℚ × ℚ)
  mu_ : ℚ
  smoothing_length_ : ℚ

/-- The member-initializer list of BaseViscousAcceleration (viscous_dynamics.hpp
lines 13-17): mu_ is initialized from the material's ReferenceViscosity() and
smoothing_length_ from the adaptation's ReferenceSmoothingLength(), both read at
construction time and stored by value. -/
def BaseViscousAcceleration.construct (b : SPHBodyState) : BaseViscousAcceleration :=
  ⟨b.particles_.rho_, b.particles_.vel_, b.particles_.acc_prior_,
   b.particles_.baseMaterial.ReferenceViscosity,
   b.sph_adaptation_.ReferenceSmoothingLength⟩

/-- Modelled from the spec: the execution of the bound dynamics object (the
interaction body in viscous_dynamics.h is not among the provided sources) computes
viscous forces from the object's stored mu_ and smoothing_length_ members; the
current body state passed at execution time plays no role in the coefficients. -/
def BaseViscousAcceleration.execCoefficients (o : BaseViscousAcceleration)
    (_currentBody : SPHBodyState) : ℚ × ℚ :=
  (o.mu_, o.smoothing_length_)

/-- C8: a BaseViscousAcceleration object constructed on body state b uses, at every
later execution and whatever the body's current material or adaptation state, the
viscosity and smoothing length read at construction; in particular a later change
of material is not reflected (second conjunct exhibits such a change). -/
theorem viscous_coefficients_construction :
    (∀ b cur : SPHBodyState,
      (BaseViscousAcceleration.construct b).execCoefficients cur =
        (b.particles_.baseMaterial.ReferenceViscosity,
         b.sph_adaptation_.ReferenceSmoothingLength)) ∧
    (∃ b cur : SPHBodyState,
      (BaseViscousAcceleration.construct b).execCoefficients cur ≠
        (cur.particles_.baseMaterial.ReferenceViscosity,
         cur.sph_adaptation_.ReferenceSmoothingLength)) := by
  refine ⟨fun b cur => rfl, ⟨⟨[], [], [], ⟨1⟩⟩, ⟨1⟩⟩, ⟨⟨[], [], [], ⟨2⟩⟩, ⟨2⟩⟩, ?_⟩
  norm_num [BaseViscousAcceleration.construct, BaseViscousAcceleration.execCoefficients,
    Prod.ext_iff]

/-
Model of updateCellLinkedListWithParticleSort (free-stream loop, line 214).
-/

/-- Cell coordinate of a particle position for the given cell size, as in the
spec's cell-linked list: the position mapped by the configured cell size. -/
def cellOf (cellSize : ℚ) (p : ℚ × ℚ) : ℤ × ℤ :=
  (⌊p.1 / cellSize⌋, ⌊p.2 / cellSize⌋)

/-- Lexicographic order on cell coordinates used as the spatial sort key. -/
def cellLE (a b : ℤ × ℤ) : Bool :=
  if a.1 < b.1 then true else if b.1 < a.1 then false else decide (a.2 ≤ b.2)

/-- Insertion of a particle into a cell-sorted particle list. -/
def insertByCell (cs : ℚ) (x : ℚ × ℚ) : List (ℚ × ℚ) → List (ℚ × ℚ)
  | [] => [x]
  | y :: t =>
    if cellLE (cellOf cs x) (cellOf cs y) then x :: y :: t else y :: insertByCell cs x t

/-- Modelled from the spec: updateCellLinkedListWithParticleSort (its
implementation is not among the provided sources) rebuilds the cell-linked list
and reorders the particle arrays so that particles are stored in cell order,
i.e. it applies a spatial sort by cell coordinate to the particle sequence. -/
def sortByCell (cs : ℚ) : List (ℚ × ℚ) → List (ℚ × ℚ)
  | [] => []
  | p :: t => insertByCell cs p (sortByCell cs t)

lemma insertByCell_perm (cs : ℚ) (x : ℚ × ℚ) :
    ∀ l : List (ℚ × ℚ), (insertByCell cs x l).Perm (x :: l)
  | [] => List.Perm.refl _
  | y :: t => by
    rw [insertByCell]
    by_cases h : cellLE (cellOf cs x) (cellOf cs y) = true
    · rw [if_pos h]
    · rw [if_neg h]
      exact ((insertByCell_perm cs x t).cons y).trans (List.Perm.swap x y t)

lemma sortByCell_perm (cs : ℚ) : ∀ ps : List (ℚ × ℚ), (sortByCell cs ps).Perm ps
  | [] => List.Perm.refl _
  | p :: t => by
    rw [sortByCell]
    exact (insertByCell_perm cs p _).trans ((sortByCell_perm cs t).cons p)

/-- C9: the sorted cell-linked-list rebuild preserves the particle multiset (no
particle is injected or deleted) yet can change the particle order, so particle
indices are not stable across the configuration update even without injection or
deletion: two particles whose positions are in reversed cell order are swapped. -/
theorem particle_sort_permutes (cs : ℚ) (ps : List (ℚ × ℚ)) :
    (sortByCell cs ps).Perm ps ∧
    sortByCell 1 [(5, 0), (0, 0)] = [(0, 0), (5, 0)] ∧
    sortByCell 1 [(5, 0), (0, 0)] ≠ [(5, 0), (0, 0)] := by
  refine ⟨sortByCell_perm cs ps, ?_, ?_⟩ <;>
    norm_num [sortByCell, insertByCell, cellOf, cellLE, Prod.ext_iff]

end SPHinXsys
